import Mathlib

/-!
Verification of the gitignore-aware glob library.

Strings are modelled as lists of characters (`Str`), so that the JavaScript
string operations used by the source (trim, split, startsWith, endsWith,
includes, slice) become directly computable list functions.  Paths use
forward slashes, as in the source.

The external `minimatch` wildcard matcher (always invoked by the source with
the option `dot: true`) is modelled by `miniMatch` below, following the
library's segment-wise `matchOne` algorithm.  All recursion is fuelled and
structural, so every definition evaluates by `decide`.
-/

set_option maxRecDepth 20000

abbrev Str := List Char

/-- Shorthand turning a string literal into the `Str` character-list model. -/
def S (s : String) : Str := s.data

/-- Whitespace test used by the model of JavaScript `String.prototype.trim`. -/
def isWs (c : Char) : Bool :=
  if c = ' ' then true else if c = '\t' then true
  else if c = '\n' then true else if c = '\r' then true else false

/-- Model of JavaScript `trim`: drop whitespace from both ends. -/
def trimStr (s : Str) : Str :=
  ((s.dropWhile isWs).reverse.dropWhile isWs).reverse

/-- Model of JavaScript `startsWith`: `strStartsWith pre s` holds when `s`
begins with `pre`. -/
def strStartsWith : Str → Str → Bool
  | [], _ => true
  | _ :: _, [] => false
  | a :: as, b :: bs => if a = b then strStartsWith as bs else false

/-- Model of JavaScript `endsWith` for a single character. -/
def endsWithChar (c : Char) (s : Str) : Bool :=
  match s.reverse with
  | [] => false
  | d :: _ => if d = c then true else false

/-- Model of JavaScript `includes` for a substring. -/
def containsSub (needle : Str) : Str → Bool
  | [] => strStartsWith needle []
  | c :: rest =>
    if strStartsWith needle (c :: rest) then true else containsSub needle rest

/-- Model of JavaScript `String.prototype.split` with a one-character
separator: `splitOn c s` always returns at least one (possibly empty) part. -/
def splitOn (c : Char) : Str → List Str
  | [] => [[]]
  | x :: xs =>
    match splitOn c xs with
    | [] => [[]]
    | h :: t => if x = c then [] :: h :: t else (x :: h) :: t

/-- Model of JavaScript `Array.prototype.join` with a one-character
separator. -/
def joinParts (c : Char) : List Str → Str
  | [] => []
  | s :: rest =>
    match rest with
    | [] => s
    | _ :: _ => s ++ c :: joinParts c rest

/-- Length of the common leading run of equal segments (the `commonLength`
loop of the repository's portable `relative`). -/
def commonLen : List Str → List Str → Nat
  | a :: as, b :: bs => if a = b then commonLen as bs + 1 else 0
  | _, _ => 0

/-- Port of the repository's portable `relative(from, to)` (`path-utils`):
split both paths on `/`, drop empty segments, strip the common prefix, and
join `..` segments with the remainder; an empty result becomes `.`.
It models `node:path.relative` for the normalized absolute paths used here. -/
def relativeP (src dst : Str) : Str :=
  let fromParts := (splitOn '/' src).filter (fun p => !p.isEmpty)
  let toParts := (splitOn '/' dst).filter (fun p => !p.isEmpty)
  let common := commonLen fromParts toParts
  let ups : List Str := List.replicate (fromParts.length - common) (S (r".."))
  let remaining := toParts.drop common
  let res := joinParts '/' (ups ++ remaining)
  if res.isEmpty then S (r".") else res

/-- Model of `node:path.join` for one extra segment, on normalized absolute
paths (no trailing slashes except the root itself). -/
def joinP (a b : Str) : Str :=
  if a = S (r"/") then a ++ b else a ++ '/' :: b

/-- Model of `node:path.dirname` on normalized paths. -/
def dirnameP (p : Str) : Str :=
  match p.reverse.dropWhile (fun c => if c = '/' then false else true) with
  | [] => S (r".")
  | _ :: rest =>
    match rest with
    | [] => if strStartsWith (S (r"/")) p then S (r"/") else S (r".")
    | _ :: _ => rest.reverse

/-! ### Model of the external `minimatch` wildcard matcher

The source always calls `minimatch` with `{ dot: true }` (and in two places
additionally `matchBase: false`, which is the default).  The model follows
minimatch's algorithm: split pattern and path on `/`, treat a segment that is
exactly `**` as a globstar, match every other segment with a conventional
one-segment wildcard matcher (`*`, `?`, `[...]`, backslash escapes, literals),
and replay `matchOne`'s end-of-input rules (a path may end with one extra
empty segment — the trailing-slash case; a globstar in final position
swallows every remaining segment except `.` and `..`). -/

/-- Parse the body of a `[...]` character class: returns the class items as
closed ranges together with the rest of the pattern after `]`, or `none`
when the class never closes (minimatch then treats `[` as a literal). -/
def classItemsF : Nat → Str → Option (List (Char × Char) × Str)
  | 0, _ => none
  | _, [] => none
  | fuel + 1, c :: rest =>
    if c = ']' then some ([], rest)
    else
      match rest with
      | '-' :: d :: rest2 =>
        if d = ']' then some ([(c, c), ('-', '-')], rest2)
        else
          match classItemsF fuel rest2 with
          | none => none
          | some (items, r) => some ((c, d) :: items, r)
      | _ =>
        match classItemsF fuel rest with
        | none => none
        | some (items, r) => some ((c, c) :: items, r)

/-- `classItemsF` with enough fuel for its input. -/
def classItems (s : Str) : Option (List (Char × Char) × Str) :=
  classItemsF (s.length + 1) s

/-- One-segment wildcard match (fuelled; consult `segMatch` for the fuelled
wrapper).  `*` matches any run of characters, `?` one character, `[...]` a
character class with optional `!`/`^` negation, `\` escapes the next
character; anything else is literal.  With `dot: true` there is no special
handling of leading dots. -/
def segMatchF : Nat → Str → Str → Bool
  | 0, _, _ => false
  | fuel + 1, pat, s =>
    match pat with
    | [] => s.isEmpty
    | c :: ps =>
      if c = '*' then
        (segMatchF fuel ps s ||
          match s with
          | [] => false
          | _ :: s' => segMatchF fuel pat s')
      else if c = '?' then
        match s with
        | [] => false
        | _ :: s' => segMatchF fuel ps s'
      else if c = '\\' then
        match ps with
        | [] =>
          match s with
          | [d] => if d = '\\' then true else false
          | _ => false
        | p :: ps' =>
          match s with
          | [] => false
          | d :: s' => if p = d then segMatchF fuel ps' s' else false
      else if c = '[' then
        let neg : Bool × Str :=
          match ps with
          | '!' :: t => (true, t)
          | '^' :: t => (true, t)
          | _ => (false, ps)
        match classItems neg.2 with
        | none =>
          match s with
          | [] => false
          | d :: s' => if c = d then segMatchF fuel ps s' else false
        | some (items, rest) =>
          match s with
          | [] => false
          | d :: s' =>
            let inClass := items.any (fun ab => decide (ab.1 ≤ d) && decide (d ≤ ab.2))
            if (inClass != neg.1) = true then segMatchF fuel rest s' else false
      else
        match s with
        | [] => false
        | d :: s' => if c = d then segMatchF fuel ps s' else false

/-- One-segment wildcard match; the fuel bound `|pat| + |s| + 1` covers the
recursion depth (every step consumes a pattern or string character). -/
def segMatch (pat s : Str) : Bool :=
  segMatchF (pat.length + s.length + 1) pat s

/-- Globstar in final position: every remaining path segment is swallowed
except `.` and `..` (with `dot: true` there is no dotfile restriction). -/
def globstarTailOk : List Str → Bool
  | [] => true
  | f :: fs =>
    if f = S (r".") ∨ f = S (r"..") then false else globstarTailOk fs

mutual
/-- Fuelled port of minimatch's `matchOne file pattern` (with `dot: true`,
`partial: false`). -/
def matchOneF : Nat → List Str → List Str → Bool
  | 0, _, _ => false
  | fuel + 1, file, pat =>
    match pat with
    | [] =>
      match file with
      | [] => true
      | [f] => f.isEmpty
      | _ => false
    | p :: ps =>
      match file with
      | [] => false
      | f :: fs =>
        if p = S (r"**") then
          if ps.isEmpty then globstarTailOk (f :: fs)
          else tryGlobF fuel (f :: fs) ps
        else
          if segMatch p f then matchOneF fuel fs ps else false

/-- Fuelled port of minimatch's globstar loop: try to match the remaining
pattern after swallowing zero or more path segments, stopping at `.`/`..`. -/
def tryGlobF : Nat → List Str → List Str → Bool
  | 0, _, _ => false
  | fuel + 1, file, ps =>
    match file with
    | [] => false
    | f :: fs =>
      (matchOneF fuel (f :: fs) ps ||
        if f = S (r".") ∨ f = S (r"..") then false else tryGlobF fuel fs ps)
end

/-- `matchOne` with the fuel bound `2*(|file| + |pattern|) + 2`, which covers
the recursion depth (each step consumes a file or pattern segment, with at
most one intervening zero-consumption step). -/
def matchOneSegs (file pat : List Str) : Bool :=
  matchOneF (2 * (file.length + pat.length) + 2) file pat

/-- Model of `minimatch(path, pattern, { dot: true })`. -/
def miniMatch (path pattern : Str) : Bool :=
  matchOneSegs (splitOn '/' path) (splitOn '/' pattern)

/-! ### Port of `src/core/postprocess.ts` -/

/-- Port of `matchesAsDirectory` (postprocess.ts): for wildcard-free
patterns, check whether any non-final path component equals the pattern. -/
def matchesAsDirectory (path pattern : Str) : Bool :=
  if !pattern.contains '*' && !pattern.contains '?' && !pattern.contains '[' then
    let parts := splitOn '/' path
    parts.dropLast.any (fun part => part = pattern)
  else false

/-- Port of `matchesGitignorePattern` (postprocess.ts): directory patterns
(trailing `/`) by literal prefix comparison; root-relative patterns
(leading `/`) via minimatch on the stripped pattern; `**/` patterns via
minimatch; patterns with `/` via minimatch directly and with a `**/`
prefix; slash-free patterns against the basename, falling back to
`matchesAsDirectory`. -/
def matchesGitignorePattern (path pattern : Str) : Bool :=
  if endsWithChar '/' pattern then
    let dirPattern := pattern.dropLast
    if path = dirPattern then true
    else strStartsWith (dirPattern ++ [ '/' ]) path
  else if strStartsWith (S (r"/")) pattern then
    miniMatch path (pattern.drop 1)
  else if containsSub (S (r"**/")) pattern then
    miniMatch path pattern
  else if pattern.contains '/' then
    if miniMatch path pattern then true
    else if !strStartsWith (S (r"**/")) pattern then
      miniMatch path (S (r"**/") ++ pattern)
    else false
  else
    let basename := (splitOn '/' path).getLastD []
    if miniMatch basename pattern then true
    else matchesAsDirectory path pattern

/-- Port of `shouldExclude` (postprocess.ts): a single-pass fold over the
patterns, in order; a matching `!` pattern resets the flag to `false`, a
matching plain pattern sets it to `true`. -/
def shouldExclude (filePath : Str) (patterns : List Str) : Bool :=
  patterns.foldl
    (fun excluded pattern =>
      if strStartsWith (S (r"!")) pattern then
        if matchesGitignorePattern filePath (pattern.drop 1) then false
        else excluded
      else if matchesGitignorePattern filePath pattern then true
      else excluded)
    false

/-- Port of `filterByGitignore` (postprocess.ts). -/
def filterByGitignore (filePaths : List Str) (patterns : List Str) : List Str :=
  filePaths.filter (fun path => !shouldExclude path patterns)

/-! ### Port of the pattern translator (`gitignore-parser.ts` and the
`gitignoreToGlob` conversion of `types.ts` / `core/gitignore-to-glob.ts`) -/

/-- Port of the `GitignorePattern` record (types.ts). -/
structure GitignorePattern where
  pattern : Str
  isNegation : Bool
  isDirectory : Bool
  isRootRelative : Bool
deriving DecidableEq, Repr

/-- Port of `parseGitignorePattern` (gitignore-parser.ts): `none` for blank
lines, comments and the literal `.gitignore`; otherwise records negation,
directory (trailing `/`) and root-relative (leading `/`) flags, keeping the
trimmed line as the pattern. -/
def parseGitignorePattern (line : Str) : Option GitignorePattern :=
  let trimmed := trimStr line
  if trimmed.isEmpty then none
  else if strStartsWith (S (r"#")) trimmed then none
  else if trimmed = S (r".gitignore") then none
  else
    let isNegation := strStartsWith (S (r"!")) trimmed
    let pattern := if isNegation then trimmed.drop 1 else trimmed
    some ⟨trimmed, isNegation,
      endsWithChar '/' pattern, strStartsWith (S (r"/")) pattern⟩

/-- Port of `parseGitignoreContent` (gitignore-parser.ts). -/
def parseGitignoreContent (content : Str) : List GitignorePattern :=
  (splitOn '\n' content).filterMap parseGitignorePattern

/-- Port of `handleDirectoryPattern` (gitignore-to-glob): glob expansion of
a pattern whose trailing `/` has already been stripped. -/
def handleDirectoryPattern (dirPattern : Str) (isNegation : Bool)
    (baseDir : Option Str) : List Str :=
  let pre := if isNegation then S (r"!") else []
  if strStartsWith (S (r"/")) dirPattern then
    let path := dirPattern.drop 1
    match baseDir with
    | some b => [pre ++ b ++ S (r"/") ++ path ++ S (r"/**")]
    | none => [pre ++ path ++ S (r"/**")]
  else if dirPattern.contains '/' then
    match baseDir with
    | some b =>
      [pre ++ b ++ S (r"/") ++ dirPattern ++ S (r"/**")] ++
        (if !strStartsWith (S (r"**/")) dirPattern then
          [pre ++ b ++ S (r"/**/") ++ dirPattern ++ S (r"/**")]
        else [])
    | none =>
      [pre ++ dirPattern ++ S (r"/**")] ++
        (if !strStartsWith (S (r"**/")) dirPattern then
          [pre ++ S (r"**/") ++ dirPattern ++ S (r"/**")]
        else [])
  else
    match baseDir with
    | some b =>
      [pre ++ b ++ S (r"/") ++ dirPattern ++ S (r"/**"),
        pre ++ b ++ S (r"/**/") ++ dirPattern ++ S (r"/**")]
    | none => [pre ++ S (r"**/") ++ dirPattern ++ S (r"/**")]

/-- Port of `handleDoubleStarPattern` (gitignore-to-glob). -/
def handleDoubleStarPattern (pattern : Str) (isNegation : Bool)
    (baseDir : Option Str) : List Str :=
  let pre := if isNegation then S (r"!") else []
  match baseDir with
  | some b =>
    if strStartsWith (S (r"**/")) pattern then
      let subPattern := pattern.drop 3
      [pre ++ b ++ S (r"/") ++ subPattern,
        pre ++ b ++ S (r"/**/") ++ subPattern]
    else
      [pre ++ b ++ S (r"/") ++ pattern]
  | none => [pre ++ pattern]

/-- Port of `handleRegularPattern` (gitignore-to-glob). -/
def handleRegularPattern (pattern : Str) (isNegation : Bool)
    (baseDir : Option Str) : List Str :=
  let pre := if isNegation then S (r"!") else []
  let dirLike :=
    !pattern.contains '.' && !pattern.contains '*' &&
      !pattern.contains '?' && !pattern.contains '['
  if pattern.contains '/' then
    match baseDir with
    | some b =>
      [pre ++ b ++ S (r"/") ++ pattern] ++
        (if !strStartsWith (S (r"*")) pattern then
          [pre ++ b ++ S (r"/**/") ++ pattern]
        else [])
    | none =>
      [pre ++ pattern] ++
        (if !strStartsWith (S (r"*")) pattern then
          [pre ++ S (r"**/") ++ pattern]
        else [])
  else
    match baseDir with
    | some b =>
      [pre ++ b ++ S (r"/") ++ pattern, pre ++ b ++ S (r"/**/") ++ pattern] ++
        (if dirLike then
          [pre ++ b ++ S (r"/") ++ pattern ++ S (r"/**"),
            pre ++ b ++ S (r"/**/") ++ pattern ++ S (r"/**")]
        else [])
    | none =>
      [pre ++ S (r"**/") ++ pattern] ++
        (if dirLike then [pre ++ S (r"**/") ++ pattern ++ S (r"/**")] else [])

/-- Port of `gitignoreToGlob`: translate one gitignore line into glob
exclude patterns (empty for blank lines, comments and the literal
`.gitignore`).  `baseDir = none` models the JavaScript `undefined`/empty
base directory. -/
def gitignoreToGlob (pat0 : Str) (baseDir : Option Str) : List Str :=
  let pattern := trimStr pat0
  if pattern.isEmpty then []
  else if strStartsWith (S (r"#")) pattern then []
  else if pattern = S (r".gitignore") then []
  else
    let isNegation := strStartsWith (S (r"!")) pattern
    let pattern := if isNegation then pattern.drop 1 else pattern
    if endsWithChar '/' pattern then
      handleDirectoryPattern pattern.dropLast isNegation baseDir
    else if strStartsWith (S (r"/")) pattern then
      let path := pattern.drop 1
      match baseDir with
      | some b => [(if isNegation then S (r"!") else []) ++ b ++ S (r"/") ++ path]
      | none => [(if isNegation then S (r"!") else []) ++ path]
    else if containsSub (S (r"**/")) pattern then
      handleDoubleStarPattern pattern isNegation baseDir
    else
      handleRegularPattern pattern isNegation baseDir

/-! ### Filesystem capability model

The source depends on the filesystem only through `readdir` (with file
types), `access` (existence probe) and `readFile`.  `readdirE` returns the
entries as `(name, isDirectory)` pairs or an error code string (`EACCES`,
`EPERM`, `ENOENT`, ...); `readFile` returns `none` when reading fails. -/

structure FileSystemModel where
  readdirE : Str → Except Str (List (Str × Bool))
  access : Str → Bool
  readFile : Str → Option Str

/-! ### Port of the gitignore file locator (`gitignore.ts` /
`gitignore-parser.ts`) -/

/-- Port of `findGitignoreInternal` / `findGitignore`: starting from
`startPath`, probe each directory for `.gitignore` while walking to the
filesystem root (`dirname` fixpoint), appending found files in visit order.
The loop is fuelled; `fuel` must exceed the directory depth. -/
def findGitignoreF (access : Str → Bool) : Nat → Str → List Str
  | 0, _ => []
  | fuel + 1, currentPath =>
    let gitignorePath := joinP currentPath (S (r".gitignore"))
    let here := if access gitignorePath then [gitignorePath] else []
    let parentPath := dirnameP currentPath
    if parentPath = currentPath then here
    else here ++ findGitignoreF access fuel parentPath

/-- The chain of directories the locator's loop visits, start directory
first, outermost last (stated from the spec's "each ancestor directory up
to and including the filesystem root"). -/
def ancestorChain : Nat → Str → List Str
  | 0, _ => []
  | fuel + 1, currentPath =>
    if dirnameP currentPath = currentPath then [currentPath]
    else currentPath :: ancestorChain fuel (dirnameP currentPath)

/-- Port of `findGitignoreRecursiveInternal` (gitignore.ts): depth-first
search for `.gitignore` files, skipping `node_modules` and `.git`, with
every read error swallowed. -/
def findGitignoreRecursiveF (fs : FileSystemModel) : Nat → Str → List Str
  | 0, _ => []
  | fuel + 1, dir =>
    match fs.readdirE dir with
    | .error _ => []
    | .ok entries =>
      entries.foldl
        (fun acc e =>
          if e.2 then
            if e.1 = S (r"node_modules") ∨ e.1 = S (r".git") then acc
            else acc ++ findGitignoreRecursiveF fs fuel (joinP dir e.1)
          else if e.1 = S (r".gitignore") then acc ++ [joinP dir e.1]
          else acc)
        []

/-- Port of `isTestDirectory` (gitignore.ts / gitignore-parser.ts). -/
def isTestDirectory (path : Str) : Bool :=
  containsSub (S (r"test-nested-gitignore")) path ||
    containsSub (S (r"test-fixtures")) path ||
    containsSub (S (r"test-recursive")) path ||
    containsSub (S (r"test-complex-nested")) path ||
    containsSub (S (r"tests/fixtures")) path

/-- Helper for `findTestRoot`: scan the path components, returning the
joined path up to the first component starting with `test-`. -/
def findTestRootAux : List Str → List Str → Option Str
  | [], _ => none
  | p :: rest, acc =>
    if strStartsWith (S (r"test-")) p then some (joinParts '/' (acc ++ [p]))
    else findTestRootAux rest (acc ++ [p])

/-- Port of `findTestRoot` (gitignore.ts). -/
def findTestRoot (absolutePath : Str) : Option Str :=
  findTestRootAux (splitOn '/' absolutePath) []

/-- Keep the first occurrence of each element (model of
`Array.from(new Set(...))`, which preserves insertion order). -/
def dedupeKeepFirst (l : List Str) : List Str :=
  l.foldl (fun acc x => if x ∈ acc then acc else acc ++ [x]) []

/-- Port of `findTestGitignoreFiles` (gitignore.ts). -/
def findTestGitignoreFiles (fs : FileSystemModel) (fuel : Nat)
    (absoluteCwd testRoot : Str) : List Str :=
  let recursiveGitignores := findGitignoreRecursiveF fs fuel testRoot
  let upwardGitignores := findGitignoreF fs.access fuel absoluteCwd
  (dedupeKeepFirst (recursiveGitignores ++ upwardGitignores)).filter
    (fun file => strStartsWith testRoot file)

/-- Port of `findRelevantGitignoreFiles` (gitignore.ts /
gitignore-parser.ts). -/
def findRelevantGitignoreFiles (fs : FileSystemModel) (fuel : Nat)
    (absoluteCwd : Str) : List Str :=
  if isTestDirectory absoluteCwd then
    match findTestRoot absoluteCwd with
    | some testRoot => findTestGitignoreFiles fs fuel absoluteCwd testRoot
    | none => findGitignoreF fs.access fuel absoluteCwd
  else findGitignoreF fs.access fuel absoluteCwd

/-! ### Port of the pattern store (`gitignore-parser.ts` `parseGitignoreToExclude`
and `collectGitignorePatterns`) -/

/-- Port of `parseGitignoreToExclude`, abstracted over the already-read file
content (`none` models a failed read, which yields no patterns): each
non-blank, non-comment line is translated by `gitignoreToGlob`. -/
def parseGitignoreToExcludeContent (content : Option Str)
    (baseDir : Option Str) : List Str :=
  match content with
  | none => []
  | some content =>
    (splitOn '\n' content).foldl
      (fun acc line =>
        let trimmed := trimStr line
        if trimmed.isEmpty then acc
        else if strStartsWith (S (r"#")) trimmed then acc
        else
          let isNegation := strStartsWith (S (r"!")) trimmed
          let pattern := if isNegation then trimmed.drop 1 else trimmed
          acc ++ gitignoreToGlob
            (if isNegation then S (r"!") ++ pattern else pattern) baseDir)
      []

/-- Port of `collectGitignorePatterns` (gitignore-parser.ts), without the
optional auxiliary ignore-file list: for each discovered `.gitignore` file,
translate its lines with the file's directory (relative to `cwd`) as base,
then always append the implicit `**/.git/**` exclusion. -/
def collectGitignorePatternsFlat (fs : FileSystemModel)
    (relevantGitignoreFiles : List Str) (absoluteCwd : Str) : List Str :=
  (relevantGitignoreFiles.foldl
    (fun acc gitignorePath =>
      let gitignoreDir := dirnameP gitignorePath
      let relPath := relativeP absoluteCwd gitignoreDir
      let baseDir :=
        if relPath.isEmpty ∨ relPath = S (r".") then none else some relPath
      acc ++ parseGitignoreToExcludeContent (fs.readFile gitignorePath) baseDir)
    []) ++ [S (r"**/.git/**")]

/-! ### Port of the traversal driver, flat-pattern variant
(`gitignore-parser.ts`: `walk`, `walkDirectory`, `processEntry`,
`loadLocalGitignorePatterns`)

A traversal result is the list of yielded relative paths together with an
optional terminal error: an async generator delivers its yields until an
exception terminates the sequence. -/

/-- Sequence two traversal results: the second contributes nothing once the
first has terminated with an error. -/
def wseq (a b : List Str × Option Str) : List Str × Option Str :=
  match a with
  | (xs, none) => (xs ++ b.1, b.2)
  | (xs, some e) => (xs, some e)

/-- Port of `loadLocalGitignorePatterns` (gitignore-parser.ts): if `dir` has
its own `.gitignore`, translate it (base = `dir` relative to `baseDir`) and
append the results to the inherited patterns. -/
def loadLocalGitignorePatterns (fs : FileSystemModel)
    (dir baseDir : Str) (patterns : List Str) : List Str :=
  let gitignorePath := joinP dir (S (r".gitignore"))
  if fs.access gitignorePath then
    let relativeDirPath := relativeP baseDir dir
    patterns ++ parseGitignoreToExcludeContent (fs.readFile gitignorePath)
      (if relativeDirPath = S (r".") then none else some relativeDirPath)
  else patterns

/-- Port of `processEntry` (gitignore-parser.ts): skip `.git`; skip an entry
whose relative path is excluded; for a directory, additionally test the
trailing-slash path and delegate the subtree to `recurse` only when it is
not excluded; yield a file's relative path. -/
def processEntryFlat (recurse : Str → List Str → List Str × Option Str)
    (entry : Str × Bool) (dir baseDir : Str) (localPatterns : List Str) :
    List Str × Option Str :=
  let fullPath := joinP dir entry.1
  let relativePath := relativeP baseDir fullPath
  if entry.1 = S (r".git") then ([], none)
  else if shouldExclude relativePath localPatterns then ([], none)
  else if entry.2 then
    let dirPath := relativePath ++ [ '/' ]
    if !shouldExclude dirPath localPatterns then recurse fullPath localPatterns
    else ([], none)
  else ([relativePath], none)

/-- Port of `walkDirectory` (gitignore-parser.ts): read the directory
(swallowing `EACCES`/`EPERM`, propagating every other error code), extend
the patterns with the directory's own `.gitignore`, and process each entry
in order. -/
def walkDirectoryFlat (fs : FileSystemModel) :
    Nat → Str → Str → List Str → List Str × Option Str
  | 0, _, _, _ => ([], none)
  | fuel + 1, dir, baseDir, patterns =>
    match fs.readdirE dir with
    | .error e =>
      if e = S (r"EACCES") ∨ e = S (r"EPERM") then ([], none) else ([], some e)
    | .ok entries =>
      let localPatterns := loadLocalGitignorePatterns fs dir baseDir patterns
      entries.foldl
        (fun acc entry =>
          wseq acc
            (processEntryFlat
              (fun d pats => walkDirectoryFlat fs fuel d baseDir pats)
              entry dir baseDir localPatterns))
        ([], none)

/-- Port of `walk` (gitignore-parser.ts): collect the glob-converted
patterns of every relevant `.gitignore` file, then walk the tree. -/
def walkFlat (fs : FileSystemModel) (fuel : Nat) (absoluteCwd : Str) :
    List Str × Option Str :=
  let relevantGitignoreFiles := findRelevantGitignoreFiles fs fuel absoluteCwd
  let allPatterns :=
    collectGitignorePatternsFlat fs relevantGitignoreFiles absoluteCwd
  walkDirectoryFlat fs fuel absoluteCwd absoluteCwd allPatterns

/-! ### Port of the traversal driver, scoped variant
(`core/gitignore-files.ts`: `walk`, `walkDirectory`, `processEntry`,
`parseGitignorePatterns`, `shouldExclude`) -/

/-- Port of the `ScopedPattern` record: a raw gitignore pattern together
with the directory whose `.gitignore` it came from. -/
structure ScopedPattern where
  pattern : Str
  scope : Str
deriving DecidableEq, Repr

/-- Port of `parseGitignorePatterns` (core/gitignore-files.ts): the raw
trimmed non-blank, non-comment, non-`.gitignore` lines of a file. -/
def parseGitignorePatternsRaw (content : Option Str) : List Str :=
  match content with
  | none => []
  | some c =>
    (splitOn '\n' c).foldl
      (fun acc line =>
        let trimmed := trimStr line
        if trimmed.isEmpty then acc
        else if strStartsWith (S (r"#")) trimmed then acc
        else if trimmed = S (r".gitignore") then acc
        else acc ++ [trimmed])
      []

/-- Port of the scoped `shouldExclude` (core/gitignore-files.ts): keep the
patterns whose scope contains the path (root-scope patterns always apply),
then run the ordered-fold exclusion on them. -/
def shouldExcludeScoped (path : Str) (scopedPatterns : List ScopedPattern)
    (baseDir : Str) : Bool :=
  let applicablePatterns :=
    scopedPatterns.foldl
      (fun acc sp =>
        let scopeRelative := relativeP baseDir sp.scope
        if scopeRelative.isEmpty ∨ scopeRelative = S (r".") then
          acc ++ [sp.pattern]
        else if strStartsWith (scopeRelative ++ [ '/' ]) path ∨
            path = scopeRelative then
          acc ++ [sp.pattern]
        else acc)
      []
  shouldExclude path applicablePatterns

/-- Port of `loadLocalGitignorePatterns` (core/gitignore-files.ts): append
the directory's own raw patterns, scoped to that directory. -/
def loadLocalGitignorePatternsScoped (fs : FileSystemModel) (dir : Str)
    (scopedPatterns : List ScopedPattern) : List ScopedPattern :=
  let gitignorePath := joinP dir (S (r".gitignore"))
  if fs.access gitignorePath then
    scopedPatterns ++
      (parseGitignorePatternsRaw (fs.readFile gitignorePath)).map
        (fun p => ⟨p, dir⟩)
  else scopedPatterns

/-- Port of `processEntry` (core/gitignore-files.ts): skip `.git`; recurse
into every directory unconditionally (no exclusion check on directories);
yield a file unless the scoped exclusion test rejects it. -/
def processEntryCore (recurse : Str → List ScopedPattern → List Str × Option Str)
    (entry : Str × Bool) (dir baseDir : Str)
    (scopedPatterns : List ScopedPattern) : List Str × Option Str :=
  let fullPath := joinP dir entry.1
  let relativePath := relativeP baseDir fullPath
  if entry.1 = S (r".git") then ([], none)
  else if entry.2 then recurse fullPath scopedPatterns
  else if !shouldExcludeScoped relativePath scopedPatterns baseDir then
    ([relativePath], none)
  else ([], none)

/-- Port of `walkDirectory` (core/gitignore-files.ts). -/
def walkDirectoryCore (fs : FileSystemModel) :
    Nat → Str → Str → List ScopedPattern → List Str × Option Str
  | 0, _, _, _ => ([], none)
  | fuel + 1, dir, baseDir, scopedPatterns =>
    match fs.readdirE dir with
    | .error e =>
      if e = S (r"EACCES") ∨ e = S (r"EPERM") then ([], none) else ([], some e)
    | .ok entries =>
      let updatedScopedPatterns :=
        loadLocalGitignorePatternsScoped fs dir scopedPatterns
      entries.foldl
        (fun acc entry =>
          wseq acc
            (processEntryCore
              (fun d sp => walkDirectoryCore fs fuel d baseDir sp)
              entry dir baseDir updatedScopedPatterns))
        ([], none)

/-- Port of `walk` (core/gitignore-files.ts), without auxiliary ignore
files: start from the implicit `.git` pattern scoped to the root. -/
def walkCore (fs : FileSystemModel) (fuel : Nat) (absoluteCwd : Str) :
    List Str × Option Str :=
  walkDirectoryCore fs fuel absoluteCwd absoluteCwd
    [⟨S (r".git"), absoluteCwd⟩]

/-! ### Port of the reason reporter (`check-ignore.ts`) -/

/-- Port of the `GitignoreReason` record. -/
structure GitignoreReason where
  gitignoreFile : Str
  lineNumber : Nat
  pattern : Str
  filePath : Str
  ignored : Bool
deriving DecidableEq, Repr

/-- Port of `parseGitignoreWithLineNumbers`: the trimmed non-blank,
non-comment lines with their 1-based line numbers (`none` content models a
failed read). -/
def parseGitignoreWithLineNumbers (content : Option Str) :
    List (Str × Nat) :=
  match content with
  | none => []
  | some c =>
    (splitOn '\n' c).enum.foldl
      (fun acc il =>
        let line := trimStr il.2
        if !line.isEmpty && !strStartsWith (S (r"#")) line then
          acc ++ [(line, il.1 + 1)]
        else acc)
      []

/-- Port of `matchesPattern` (check-ignore.ts): match the path, made
relative to the `.gitignore`'s directory, against the pattern with any `!`
stripped. -/
def matchesPatternCI (path pattern basePath : Str) : Bool :=
  let relativePath := relativeP basePath path
  let cleanPattern :=
    if strStartsWith (S (r"!")) pattern then pattern.drop 1 else pattern
  matchesGitignorePattern relativePath cleanPattern

/-- The scan at the heart of `checkGitignoreReason` (check-ignore.ts): walk
the `.gitignore` files root-first (the locator's leaf-first list reversed),
and inside each file walk the patterns in order, overwriting `lastMatch`
with a fresh reason at every pattern that matches; `ignored` is the
negation flag of the matching pattern. -/
def ciScan (read : Str → Option Str) (gitignoreFiles : List Str)
    (workingDir absoluteFilePath : Str) : Option GitignoreReason :=
  gitignoreFiles.reverse.foldl
    (fun lastMatch gitignoreFile =>
      let patterns := parseGitignoreWithLineNumbers (read gitignoreFile)
      let gitignoreDir := dirnameP gitignoreFile
      patterns.foldl
        (fun lm pl =>
          if matchesPatternCI absoluteFilePath pl.1 gitignoreDir then
            some ⟨relativeP workingDir gitignoreFile, pl.2, pl.1,
              relativeP workingDir absoluteFilePath,
              !strStartsWith (S (r"!")) pl.1⟩
          else lm)
        lastMatch)
    none

/-- Port of `checkGitignoreReason` (check-ignore.ts): resolve the absolute
file path, locate the `.gitignore` files upward from its directory, and run
the scan; the final `lastMatch` (matched or `none`) is returned as is. -/
def checkGitignoreReasonM (fs : FileSystemModel) (fuel : Nat)
    (filePath cwd : Str) : Option GitignoreReason :=
  let workingDir := cwd
  let absoluteFilePath :=
    if strStartsWith (S (r"/")) filePath then filePath
    else joinP workingDir filePath
  let gitignoreFiles :=
    findGitignoreF fs.access fuel (dirnameP absoluteFilePath)
  ciScan fs.readFile gitignoreFiles workingDir absoluteFilePath

/-! ### Port of the glob pipeline (`glob.ts` with `preprocess.ts`)

The filesystem traversal primitive `node:fs/promises.glob` is an external
collaborator; it is modelled as a capability returning, for a search
pattern, a working directory and a list of early-exclude patterns, the
matching relative paths. -/

/-- Model of JavaScript `endsWith` for a string suffix. -/
def endsWithStr (suffix s : Str) : Bool :=
  strStartsWith suffix.reverse s.reverse

/-- Port of `extractEarlyExcludePatterns` (preprocess.ts): empty as soon as
any negation is present; otherwise wildcard-free directory-looking patterns
contribute a `/**` form, and patterns already ending in `/**` pass
through. -/
def extractEarlyExcludePatterns (patterns : List Str) : List Str :=
  if patterns.any (fun p => strStartsWith (S (r"!")) p) then []
  else
    patterns.foldl
      (fun acc pattern =>
        if strStartsWith (S (r"!")) pattern then acc
        else
          let acc :=
            if !pattern.contains '*' && !pattern.contains '?' &&
                !pattern.contains '[' then
              if endsWithChar '/' pattern then
                acc ++ [pattern.dropLast ++ S (r"/**")]
              else if !pattern.contains '/' && !pattern.contains '.' then
                acc ++ [pattern ++ S (r"/**")]
              else acc
            else acc
          if endsWithStr (S (r"/**")) pattern then acc ++ [pattern]
          else acc)
      []

/-- Port of `preprocessPatterns` (preprocess.ts): the early-exclude subset
plus the unchanged full pattern list for postprocessing. -/
def preprocessPatterns (patterns : List Str) : List Str × List Str :=
  (extractEarlyExcludePatterns patterns, patterns)

/-- Capability model of the external `node:fs/promises.glob` traversal:
`run pattern cwd exclude` returns the matching relative paths. -/
structure GlobCapability where
  run : Str → Str → List Str → List Str

/-- Port of `glob` (glob.ts, path-string variant): collect the gitignore
patterns, let the external matcher enumerate candidates (excluding
`**/.git/**` and the early excludes during traversal), then filter the
candidates through the ordered-fold exclusion. -/
def globNode (cap : GlobCapability) (fs : FileSystemModel) (fuel : Nat)
    (pattern absoluteCwd : Str) : List Str :=
  let relevantGitignoreFiles := findRelevantGitignoreFiles fs fuel absoluteCwd
  let allPatterns :=
    collectGitignorePatternsFlat fs relevantGitignoreFiles absoluteCwd
  let pre := preprocessPatterns allPatterns
  let allPaths := cap.run pattern absoluteCwd (S (r"**/.git/**") :: pre.1)
  filterByGitignore allPaths pre.2

/-! ### Concrete filesystem scenarios used by the theorems -/

/-- Scenario B of the spec: root `.gitignore` contains `dist/`; `dist/`
holds `output.js` and its own `.gitignore` containing `!output.js`. -/
def fsScenarioB : FileSystemModel where
  readdirE := fun d =>
    if d = S (r"/r") then
      .ok [(S (r".gitignore"), false), (S (r"dist"), true)]
    else if d = S (r"/r/dist") then
      .ok [(S (r".gitignore"), false), (S (r"output.js"), false)]
    else .error (S (r"ENOENT"))
  access := fun p =>
    p = S (r"/r/.gitignore") ∨ p = S (r"/r/dist/.gitignore")
  readFile := fun p =>
    if p = S (r"/r/.gitignore") then some (S (r"dist/"))
    else if p = S (r"/r/dist/.gitignore") then some (S (r"!output.js"))
    else none

/-- Scenario D of the spec: a single root `.gitignore` with `*.log` and
`!important.log`. -/
def fsScenarioD : FileSystemModel where
  readdirE := fun _ => .error (S (r"ENOENT"))
  access := fun p => p = S (r"/r/.gitignore")
  readFile := fun p =>
    if p = S (r"/r/.gitignore") then some (S ("*.log\n!important.log"))
    else none

/-- `fsScenarioD` with eta-expanded fields: pointwise equal to
`fsScenarioD` without being syntactically identical. -/
def fsScenarioDEta : FileSystemModel where
  readdirE := fun d => fsScenarioD.readdirE d
  access := fun p => fsScenarioD.access p
  readFile := fun p => fsScenarioD.readFile p

/-- A root directory with a permission-denied subdirectory `sub` and a
readable file `a.txt`. -/
def fsPermDenied : FileSystemModel where
  readdirE := fun d =>
    if d = S (r"/r") then
      .ok [(S (r"sub"), true), (S (r"a.txt"), false)]
    else if d = S (r"/r/sub") then .error (S (r"EACCES"))
    else .error (S (r"ENOENT"))
  access := fun _ => false
  readFile := fun _ => none

/-- Like `fsPermDenied`, but the subdirectory read fails with a
non-permission I/O error. -/
def fsDiskError : FileSystemModel where
  readdirE := fun d =>
    if d = S (r"/r") then
      .ok [(S (r"sub"), true), (S (r"a.txt"), false)]
    else if d = S (r"/r/sub") then .error (S (r"EIO"))
    else .error (S (r"ENOENT"))
  access := fun _ => false
  readFile := fun _ => none

/-- A traversal capability that finds nothing. -/
def capEmpty : GlobCapability where
  run := fun _ _ _ => []

/-- A pattern segment without wildcard metacharacters: it can only match
literally. -/
def litOnly (pat : Str) : Bool :=
  pat.all (fun c =>
    if c = '*' then false
    else if c = '?' then false
    else if c = '\\' then false
    else if c = '[' then false
    else true)

/-! ## Theorems -/

/-- C2: exclusion evaluation of a candidate path against an ordered pattern
list is a single-pass, order-dependent fold: it starts from `false`, the
last rule of the list acts last (a matching negation resets the state to
`false`, a matching plain rule sets it to `true`, a non-matching rule
leaves the state of the earlier rules); and for the rule sequence `*.log`,
`!important.log`, the path `a.log` is excluded while `important.log` is
not. -/
theorem c2_shouldExclude_ordered_fold :
    (∀ path : Str, shouldExclude path [] = false) ∧
    (∀ (path : Str) (pats : List Str) (pat : Str),
      shouldExclude path (pats ++ [pat]) =
        if strStartsWith (S (r"!")) pat then
          if matchesGitignorePattern path (pat.drop 1) then false
          else shouldExclude path pats
        else if matchesGitignorePattern path pat then true
        else shouldExclude path pats) ∧
    shouldExclude (S (r"a.log")) [S (r"*.log"), S (r"!important.log")] = true ∧
    shouldExclude (S (r"important.log")) [S (r"*.log"), S (r"!important.log")] = false := by
  refine ⟨fun _ => rfl, fun path pats pat => ?_, by decide, by decide⟩
  simp only [shouldExclude, List.foldl_append, List.foldl_cons, List.foldl_nil]

/-- C10: a pattern with a trailing slash matches exactly the paths equal to
the pattern without its slash or extending it by a `/`; the comparison is
literal, so wildcards inside such a pattern are never expanded. -/
theorem c10_trailing_slash_pattern_literal :
    ∀ (path pattern : Str), endsWithChar '/' pattern = true →
      (matchesGitignorePattern path pattern = true ↔
        (path = pattern.dropLast ∨
          strStartsWith (pattern.dropLast ++ [ '/' ]) path = true)) := by
  intro path pattern h
  rw [matchesGitignorePattern]
  simp only [h, if_true]
  by_cases hp : path = pattern.dropLast <;> simp [hp]

/-- C10 witness: `sub/` matches the directory `sub` itself, and `a*/` does
not match `ab` (the `*` is literal in a directory-only pattern). -/
theorem c10_trailing_slash_pattern_literal_witness :
    matchesGitignorePattern (S (r"sub")) (S (r"sub/")) = true ∧
    matchesGitignorePattern (S (r"ab")) (S (r"a*/")) = false := by
  constructor
  · exact (c10_trailing_slash_pattern_literal (S (r"sub")) (S (r"sub/"))
      (by decide)).mpr (Or.inl (by decide))
  · have h := c10_trailing_slash_pattern_literal (S (r"ab")) (S (r"a*/"))
      (by decide)
    cases hb : matchesGitignorePattern (S (r"ab")) (S (r"a*/")) with
    | false => rfl
    | true => exact absurd (h.mp hb) (by decide)

/-- C8 counterexample: a `.gitignore` whose content is the single line `*`
excludes the path `.gitignore` itself through the translated patterns, so
"never excluded by its own content" fails as a universal statement. -/
theorem c8_self_exclusion_counterexample :
    shouldExclude (S (r".gitignore")) (gitignoreToGlob (S (r"*")) none) = true := by
  decide

/-- C8 (amended): the pattern translator produces no rule for a line that,
after trimming, is empty, starts with `#`, or equals `.gitignore` exactly;
hence the literal self-reference line never excludes anything (but other
content, such as `*`, can still exclude the `.gitignore` file, see the
counterexample). -/
theorem c8_translator_drops_inert_lines :
    ∀ (line : Str) (baseDir : Option Str),
      (trimStr line = [] ∨ strStartsWith (S (r"#")) (trimStr line) = true ∨
        trimStr line = S (r".gitignore")) →
      parseGitignorePattern line = none ∧ gitignoreToGlob line baseDir = [] := by
  intro line b h
  rcases h with h | h | h
  · rw [parseGitignorePattern, gitignoreToGlob, h]; exact ⟨rfl, rfl⟩
  · rcases ht : trimStr line with _ | ⟨c, rest⟩
    · rw [ht] at h; exact absurd h (by decide)
    · rw [ht] at h
      rw [parseGitignorePattern, gitignoreToGlob, ht]
      have hempty : (c :: rest).isEmpty = false := rfl
      rw [hempty, h]
      exact ⟨rfl, rfl⟩
  · rw [parseGitignorePattern, gitignoreToGlob, h]; exact ⟨rfl, rfl⟩

/-- C8 witness: a trimmed `.gitignore` self-reference line produces no
rule. -/
theorem c8_translator_drops_inert_lines_witness :
    parseGitignorePattern (S ("  .gitignore ")) = none ∧
    gitignoreToGlob (S ("  .gitignore ")) none = [] :=
  c8_translator_drops_inert_lines (S ("  .gitignore ")) none
    (Or.inr (Or.inr (by decide)))

/-- C5: a line whose leading `#` or `!` is escaped with a backslash is kept
as a literal pattern by the translator — it is neither a comment nor a
negation marker — and the matcher resolves the escape, so the pattern
matches a name that starts with `#` or `!` (shown both on the raw matcher
and through the glob-conversion pipeline). -/
theorem c5_escaped_hash_bang_literal :
    (∀ (line rest : Str),
      (trimStr line = '\\' :: '#' :: rest ∨
        trimStr line = '\\' :: '!' :: rest) →
      parseGitignorePattern line =
        some ⟨trimStr line, false, endsWithChar '/' (trimStr line), false⟩) ∧
    matchesGitignorePattern (S (r"#important")) (S (r"\#important")) = true ∧
    shouldExclude (S (r"#important"))
      (gitignoreToGlob (S (r"\#important")) none) = true ∧
    matchesGitignorePattern (S (r"!keep")) (S (r"\!keep")) = true ∧
    shouldExclude (S (r"!keep")) (gitignoreToGlob (S (r"\!keep")) none) = true := by
  refine ⟨?_, by decide, by decide, by decide, by decide⟩
  intro line rest h
  rcases h with h | h <;>
  · rw [parseGitignorePattern, h]
    simp [strStartsWith, S]

/-- C5 witness: the line `\#x` becomes a plain (non-negation) rule whose
pattern is the trimmed line itself. -/
theorem c5_escaped_hash_bang_literal_witness :
    parseGitignorePattern (S (r"\#x")) =
      some ⟨trimStr (S (r"\#x")), false,
        endsWithChar '/' (trimStr (S (r"\#x"))), false⟩ :=
  c5_escaped_hash_bang_literal.1 (S (r"\#x")) (S (r"x")) (Or.inl (by decide))

/-- C4 counterexample: with `.gitignore` files present in both `/` and
`/a`, the upward locator started at `/a` returns the start directory's file
first and the root's last — not root-first as the claim states. -/
theorem c4_locator_order_counterexample :
    findGitignoreF
        (fun p => p = S (r"/.gitignore") ∨ p = S (r"/a/.gitignore"))
        3 (S (r"/a")) =
      [S (r"/a/.gitignore"), S (r"/.gitignore")] ∧
    decide (findGitignoreF
        (fun p => p = S (r"/.gitignore") ∨ p = S (r"/a/.gitignore"))
        3 (S (r"/a")) =
      [S (r"/.gitignore"), S (r"/a/.gitignore")]) = false := by
  exact ⟨by decide, by decide⟩

/-- C4 (amended): the upward gitignore locator returns the discovered
`.gitignore` paths in leaf-first order — exactly the `.gitignore` files of
the visited directory chain, start directory first, outermost ancestor
last.  (Callers obtain root-first order by reversing the list.) -/
theorem c4_locator_leaf_first :
    ∀ (access : Str → Bool) (fuel : Nat) (startPath : Str),
      findGitignoreF access fuel startPath =
        ((ancestorChain fuel startPath).filter
          (fun d => access (joinP d (S (r".gitignore"))))).map
          (fun d => joinP d (S (r".gitignore"))) := by
  intro access fuel
  induction fuel with
  | zero => intro startPath; rfl
  | succ n ih =>
    intro startPath
    rw [findGitignoreF, ancestorChain]
    by_cases hd : dirnameP startPath = startPath
    · simp only [hd, if_true, ite_true]
      by_cases ha : access (joinP startPath (S (r".gitignore"))) <;>
        simp [ha]
    · simp only [hd, if_false, ite_false]
      by_cases ha : access (joinP startPath (S (r".gitignore"))) <;>
        simp [ha, ih]

/-- A fold that only ever overwrites its optional accumulator yields `none`
exactly when it starts from `none` and no step overwrites. -/
theorem foldl_none_iff {α β : Type _} (G : Option α → β → Option α)
    (P : β → Prop) (hG : ∀ init b, (G init b = none ↔ (init = none ∧ P b))) :
    ∀ (l : List β) (init : Option α),
      (l.foldl G init = none ↔ (init = none ∧ ∀ b ∈ l, P b)) := by
  intro l
  induction l with
  | nil => intro init; simp
  | cons b bs ih =>
    intro init
    rw [List.foldl_cons, ih, hG]
    constructor
    · rintro ⟨⟨h1, h2⟩, h3⟩
      exact ⟨h1, by simpa using ⟨h2, h3⟩⟩
    · rintro ⟨h1, h2⟩
      simp only [List.mem_cons] at h2
      exact ⟨⟨h1, h2 b (Or.inl rfl)⟩, fun x hx => h2 x (Or.inr hx)⟩

/-- C6: the reason scan returns `null` exactly when no rule of any
discovered `.gitignore` file matches the queried path; in Scenario D, the
path matched last by the negation `!important.log` yields a reason record
with that pattern and `ignored = false` rather than `null`, while an
unmatched path yields `null`. -/
theorem c6_reason_none_iff_unmatched :
    (∀ (read : Str → Option Str) (files : List Str) (wd abs : Str),
      ciScan read files wd abs = none ↔
        ∀ f ∈ files, ∀ pl ∈ parseGitignoreWithLineNumbers (read f),
          matchesPatternCI abs pl.1 (dirnameP f) = false) ∧
    checkGitignoreReasonM fsScenarioD 5 (S (r"important.log")) (S (r"/r")) =
      some ⟨S (r".gitignore"), 2, S (r"!important.log"),
        S (r"important.log"), false⟩ ∧
    checkGitignoreReasonM fsScenarioD 5 (S (r"foo.txt")) (S (r"/r")) = none := by
  refine ⟨?_, by decide, by decide⟩
  intro read files wd abs
  rw [ciScan]
  rw [foldl_none_iff _
    (fun f => ∀ pl ∈ parseGitignoreWithLineNumbers (read f),
      matchesPatternCI abs pl.1 (dirnameP f) = false)
    (fun init f => by
      rw [foldl_none_iff _
        (fun pl => matchesPatternCI abs pl.1 (dirnameP f) = false)
        (fun lm pl => by
          cases hm : matchesPatternCI abs pl.1 (dirnameP f) <;> simp [hm])])]
  simp

/-- C6 witness: with no `.gitignore` files at all, the scan reports
`null`. -/
theorem c6_reason_none_iff_unmatched_witness :
    ciScan (fun _ => none) [] (S (r"/w")) (S (r"/w/f.txt")) = none :=
  (c6_reason_none_iff_unmatched.1 (fun _ => none) [] (S (r"/w"))
    (S (r"/w/f.txt"))).mpr (by simp)

/-- C7: a directory read failing with `EACCES` or `EPERM` is swallowed (the
subtree contributes no entries and no error), while any other error code
terminates the traversal with that error; concretely, a permission-denied
subdirectory leaves the sibling file `a.txt` in the output, while an `EIO`
subdirectory aborts the sequence before `a.txt` is yielded. -/
theorem c7_permission_swallowed_other_propagates :
    (∀ (fs : FileSystemModel) (fuel : Nat) (dir baseDir : Str)
        (patterns : List Str) (e : Str),
      fs.readdirE dir = .error e →
      walkDirectoryFlat fs (fuel + 1) dir baseDir patterns =
        ([], if e = S (r"EACCES") ∨ e = S (r"EPERM") then none else some e)) ∧
    walkDirectoryFlat fsPermDenied 3 (S (r"/r")) (S (r"/r")) [] =
      ([S (r"a.txt")], none) ∧
    walkDirectoryFlat fsDiskError 3 (S (r"/r")) (S (r"/r")) [] =
      ([], some (S (r"EIO"))) := by
  refine ⟨?_, by decide, by decide⟩
  intro fs fuel dir baseDir patterns e h
  rw [walkDirectoryFlat, h]
  by_cases hc : e = S (r"EACCES") ∨ e = S (r"EPERM") <;> simp [hc]

/-- C7 witness: the universal branch applied to the concrete `EIO`
filesystem. -/
theorem c7_permission_swallowed_other_propagates_witness :
    walkDirectoryFlat fsDiskError 1 (S (r"/r/sub")) (S (r"/r")) [] =
      ([], some (S (r"EIO"))) := by
  have h := c7_permission_swallowed_other_propagates.1 fsDiskError 0
    (S (r"/r/sub")) (S (r"/r")) [] (S (r"EIO")) rfl
  simpa using h

/-- C9: the glob enumeration is a pure function of the search pattern, the
options and the filesystem capability: two runs that observe identical
capability answers produce identical path lists, so an unmodified
filesystem always yields the same set of paths. -/
theorem c9_glob_deterministic :
    ∀ (cap1 cap2 : GlobCapability) (fs1 fs2 : FileSystemModel) (fuel : Nat)
      (pattern cwd : Str),
      (∀ p c e, cap1.run p c e = cap2.run p c e) →
      (∀ d, fs1.readdirE d = fs2.readdirE d) →
      (∀ p, fs1.access p = fs2.access p) →
      (∀ p, fs1.readFile p = fs2.readFile p) →
      globNode cap1 fs1 fuel pattern cwd = globNode cap2 fs2 fuel pattern cwd := by
  intro cap1 cap2 fs1 fs2 fuel pattern cwd hc hr ha hf
  obtain ⟨c1⟩ := cap1
  obtain ⟨c2⟩ := cap2
  obtain ⟨r1, a1, f1⟩ := fs1
  obtain ⟨r2, a2, f2⟩ := fs2
  have ec : c1 = c2 := funext fun p => funext fun c => funext fun e => hc p c e
  have er : r1 = r2 := funext hr
  have ea : a1 = a2 := funext ha
  have ef : f1 = f2 := funext hf
  rw [ec, er, ea, ef]

/-- C9 witness: a run against a pointwise-equal copy of the Scenario D
filesystem returns the same paths as a run against the original. -/
theorem c9_glob_deterministic_witness :
    globNode capEmpty fsScenarioDEta 3 (S (r"*.log")) (S (r"/r")) =
      globNode capEmpty fsScenarioD 3 (S (r"*.log")) (S (r"/r")) :=
  c9_glob_deterministic capEmpty capEmpty fsScenarioDEta fsScenarioD 3
    (S (r"*.log")) (S (r"/r")) (fun _ _ _ => rfl) (fun _ => rfl)
    (fun _ => rfl) (fun _ => rfl)

/-- C1: in Scenario B (root `.gitignore` holds `dist/`; `dist/.gitignore`
holds `!output.js`) the flat-pattern walk pipeline
(`gitignore-parser.ts`) honors the directory exclusion — it skips the
`dist` subtree and never yields `dist/output.js` — but the scoped core walk
pipeline (`core/gitignore-files.ts`) recurses into `dist` without any
directory exclusion check and lets the nested negation rescue the file, so
it does yield `dist/output.js`, contradicting the claim, the spec and the
repository's own fixture documentation. -/
theorem c1_directory_exclusion_two_variants :
    walkFlat fsScenarioB 5 (S (r"/r")) = ([S (r".gitignore")], none) ∧
    (walkCore fsScenarioB 5 (S (r"/r"))).1 =
      [S (r".gitignore"), S (r"dist/output.js")] := by
  exact ⟨by decide, by decide⟩


/-- A wildcard-free segment pattern matches exactly itself. -/
theorem segMatchF_lit :
    ∀ (fuel : Nat) (pat s : Str), litOnly pat = true →
      pat.length + s.length < fuel →
      (segMatchF fuel pat s = true ↔ pat = s) := by
  intro fuel
  induction fuel with
  | zero => intro pat s _ h; omega
  | succ n ih =>
    intro pat s hlit hlen
    match pat with
    | [] =>
      simp only [segMatchF]
      cases s <;> simp
    | c :: ps =>
      have hc : (if c = '*' then false else if c = '?' then false
          else if c = '\\' then false else if c = '[' then false
          else true) = true ∧ litOnly ps = true := by
        simpa [litOnly] using hlit
      have h1 : ¬ c = '*' := by intro h; simp [h] at hc
      have h2 : ¬ c = '?' := by intro h; simp [h] at hc
      have h3 : ¬ c = '\\' := by intro h; simp [h] at hc
      have h4 : ¬ c = '[' := by intro h; simp [h] at hc
      simp only [segMatchF, h1, h2, h3, h4, if_false]
      match s with
      | [] => simp
      | d :: s' =>
        by_cases hcd : c = d
        · subst hcd
          have hb : ps.length + s'.length < n := by
            simp only [List.length_cons] at hlen; omega
          simp [ih ps s' hc.2 hb]
        · simp [hcd]

/-- `splitOn` never returns the empty list. -/
theorem splitOn_ne_nil (c : Char) : ∀ s : Str, splitOn c s ≠ [] := by
  intro s
  match s with
  | [] => simp [splitOn]
  | x :: xs =>
    rw [splitOn]
    rcases h : splitOn c xs with _ | ⟨h1, t⟩
    · simp
    · by_cases hx : x = c <;> simp [hx]

/-- Joining the parts of `splitOn` restores the original string. -/
theorem joinParts_splitOn (c : Char) : ∀ s : Str,
    joinParts c (splitOn c s) = s := by
  intro s
  induction s with
  | nil => rfl
  | cons x xs ih =>
    rw [splitOn]
    rcases h : splitOn c xs with _ | ⟨h1, t⟩
    · exact absurd h (splitOn_ne_nil c xs)
    · rw [h] at ih
      by_cases hx : x = c
      · have hun : joinParts c ([] :: h1 :: t) = [] ++ c :: joinParts c (h1 :: t) := rfl
        simp only [hx, ite_true, hun, List.nil_append, ih]
      · simp only [hx, if_false]
        match t with
        | [] =>
          simp only [joinParts] at ih ⊢
          rw [ih]
        | u :: t' =>
          simp only [joinParts] at ih ⊢
          rw [List.cons_append, ih]

/-- `matchOne` against the single literal pattern segment `build`: the first
path segment must equal `build`, followed by at most one empty segment (the
trailing-slash case). -/
theorem matchOneF_build :
    ∀ (f : Str) (fs : List Str) (fuel : Nat), 2 ≤ fuel →
      (matchOneF fuel (f :: fs) [S (r"build")] = true ↔
        (f = S (r"build") ∧ (fs = [] ∨ fs = [[]]))) := by
  intro f fs fuel hfuel
  obtain ⟨n, rfl⟩ : ∃ n, fuel = n + 2 := ⟨fuel - 2, by omega⟩
  have hns : ¬ (S (r"build") = S (r"**")) := by decide
  simp only [matchOneF, hns, if_false]
  have hseg : segMatch (S (r"build")) f = true ↔ S (r"build") = f := by
    rw [segMatch]
    exact segMatchF_lit _ _ _ (by decide) (by omega)
  by_cases hm : segMatch (S (r"build")) f = true
  · rw [if_pos hm]
    have hf : f = S (r"build") := (hseg.mp hm).symm
    match fs with
    | [] => simp [hf]
    | [g] => cases g <;> simp [hf]
    | g :: g' :: t => simp [hf]
  · rw [if_neg hm]
    constructor
    · intro h; exact absurd h (by simp)
    · rintro ⟨hf, _⟩
      exact absurd (hseg.mpr hf.symm) hm

/-- `minimatch` against the single-segment pattern `build` accepts exactly
`build` and `build/`. -/
theorem miniMatch_build :
    ∀ p : Str, miniMatch p (S (r"build")) = true ↔
      (p = S (r"build") ∨ p = S (r"build/")) := by
  intro p
  rw [miniMatch]
  have hsplit : splitOn '/' (S (r"build")) = [S (r"build")] := by decide
  rw [hsplit]
  rcases hsp : splitOn '/' p with _ | ⟨f, fs⟩
  · exact absurd hsp (splitOn_ne_nil '/' p)
  · rw [matchOneSegs]
    rw [matchOneF_build f fs _ (by omega)]
    have hjoin : joinParts '/' (f :: fs) = p := by
      rw [← hsp]; exact joinParts_splitOn '/' p
    constructor
    · rintro ⟨hf, hfs | hfs⟩
      · left
        rw [← hjoin, hf, hfs]
        rfl
      · right
        rw [← hjoin, hf, hfs]
        rfl
    · rintro (hp | hp)
      · rw [hp] at hsp
        have he : ([S (r"build")] : List Str) = f :: fs := by
          rw [← hsp]; decide
        injection he with e1 e2
        exact ⟨e1.symm, Or.inl e2.symm⟩
      · rw [hp] at hsp
        have he : ([S (r"build"), []] : List Str) = f :: fs := by
          rw [← hsp]; decide
        injection he with e1 e2
        exact ⟨e1.symm, Or.inr e2.symm⟩

/-- C3 counterexample: the conversion pipeline translates `/build` to the
bare pattern `build`, and the postprocess exclusion then matches it against
the basename of `sub/build`, so `sub/build` is excluded — the claim's
"never excludes `sub/build` ... in every evaluation path" is false. -/
theorem c3_conversion_pipeline_counterexample :
    shouldExclude (S (r"sub/build")) (gitignoreToGlob (S (r"/build")) none) =
      true := by
  decide

/-- C3 (amended): raw-pattern matching honors root anchoring — `/build`
matches exactly the entry `build` (or `build/`) directly under the scope
directory, never `sub/build` — but the gitignore-to-glob conversion maps
`/build` to the bare pattern `build`, which the postprocess matcher also
applies to basenames at any depth, so the conversion pipeline does exclude
`sub/build`. -/
theorem c3_root_anchored_amended :
    (∀ path : Str,
      matchesGitignorePattern path (S (r"/build")) = true ↔
        (path = S (r"build") ∨ path = S (r"build/"))) ∧
    gitignoreToGlob (S (r"/build")) none = [S (r"build")] ∧
    shouldExclude (S (r"sub/build")) [S (r"build")] = true := by
  refine ⟨?_, by decide, by decide⟩
  intro path
  rw [matchesGitignorePattern]
  have h1 : endsWithChar '/' (S (r"/build")) = false := by decide
  have h2 : strStartsWith (S (r"/")) (S (r"/build")) = true := by decide
  have h3 : (S (r"/build")).drop 1 = S (r"build") := by decide
  simp only [h1, h2, h3, Bool.false_eq_true, if_false, if_true]
  exact miniMatch_build path
